import Mathlib

/-!
Shallow embedding of the Tamara lead-data pipeline (`pipeline.py` and
`enrich_leads.py`) and proofs about its record-level logic: blacklist
evaluation, URL classification and digital-presence migration,
journey-stage resolution, onboarding step flags, and deduplication.
Nullable values are `Option`; pandas `NaN`/`NaT` is `none`.
-/

/-- Whitespace predicate used by Python `str.strip`. -/
def isPySpace (c : Char) : Bool :=
  c == ' ' || c == '\t' || c == '\n' || c == '\r' || c == '\x0b' || c == '\x0c'

/-- Python `str.strip`: drop whitespace from both ends. -/
def pyStrip (s : String) : String :=
  String.mk (((s.data.dropWhile isPySpace).reverse.dropWhile isPySpace).reverse)

/-- Python `str.lower` (the data is ASCII, so ASCII folding is exact). -/
def pyLower (s : String) : String :=
  String.mk (s.data.map Char.toLower)

/-- Does the pattern `p` start the list? -/
def startsWith : List Char → List Char → Bool
  | [], _ => true
  | _ :: _, [] => false
  | p :: ps, c :: cs => p == c && startsWith ps cs

/-- Does the pattern `p` occur as a contiguous substring of the list? -/
def hasSub (p : List Char) : List Char → Bool
  | [] => p.isEmpty
  | c :: rest => startsWith p (c :: rest) || hasSub p rest

/-- Python `sub in s` on strings (contiguous substring test). -/
def strContains (s sub : String) : Bool := hasSub sub.data s.data

/-- Python `str(x)` on a nullable string: `str(np.nan)` is the text `nan`. -/
def optStr : Option String → String
  | none => "nan"
  | some s => s

/-! ## Blacklist evaluator (`pipeline.py`, `apply_blacklist_logic`) -/

/-- Calendar date; comparisons go through the `yyyymmdd` encoding, which is
order-isomorphic to chronological order on calendar dates. -/
structure Date where
  year : Nat
  month : Nat
  day : Nat
deriving DecidableEq

/-- Numeric encoding of a date used for comparisons. -/
def Date.toN (d : Date) : Nat := d.year * 10000 + d.month * 100 + d.day

/-- `BLACKLIST_START_DATE = pd.Timestamp('2024-06-01')` from `pipeline.py`. -/
def BLACKLIST_START_DATE : Date := ⟨2024, 6, 1⟩

/-- `parse_raw_blacklist` from `pipeline.py`: `green.png`/`"1"` parses to
PASSED (`some 1`), `red.png`/`"0"` to FAILED (`some 0`), anything else
(null included) to UNKNOWN (`none`). -/
def parse_raw_blacklist (val : Option String) : Option Nat :=
  match val with
  | none => none
  | some s =>
    if strContains s "green.png" || s == "1" then some 1
    else if strContains s "red.png" || s == "0" then some 0
    else none

/-- Per-record content of `apply_blacklist_logic` from `pipeline.py`:
status defaults to 0 and is set to 1 when `created_date <
BLACKLIST_START_DATE` or when `created_date >= BLACKLIST_START_DATE` and
the raw code parses to 1. A null (`NaT`) date compares false on both
sides, exactly as in pandas. -/
def blacklistStatus (created : Option Date) (raw : Option String) : Nat :=
  let parsed := parse_raw_blacklist raw
  let condPre :=
    match created with
    | some d => decide (d.toN < BLACKLIST_START_DATE.toN)
    | none => false
  let condPostPass :=
    (match created with
     | some d => decide (BLACKLIST_START_DATE.toN ≤ d.toN)
     | none => false) && (parsed == some 1)
  if condPre || condPostPass then 1 else 0

/-! ## URL classifiers (`enrich_leads.py`) -/

/-- Maps indicators from `is_google_maps_url`. -/
def maps_indicators : List String :=
  ["maps.google", "goo.gl/maps", "google.com/maps", "maps.app.goo.gl"]

/-- Social domains from `is_social_media_url`. -/
def social_domains : List String :=
  ["instagram.com", "snapchat.com", "youtube.com", "facebook.com",
   "twitter.com", "x.com", "linkedin.com", "tiktok.com", "pinterest.com"]

/-- E-commerce domains from `is_ecommerce_url`. -/
def ecommerce_domains : List String := ["salla.sa"]

/-- `is_google_maps_url`: null or blank is not a maps URL; otherwise
case-insensitive substring match against the maps indicator list. -/
def is_google_maps_url (url : Option String) : Bool :=
  match url with
  | none => false
  | some s =>
    if pyStrip s == "" then false
    else maps_indicators.any (fun ind => strContains (pyLower s) ind)

/-- `is_social_media_url` from `enrich_leads.py`. -/
def is_social_media_url (url : Option String) : Bool :=
  match url with
  | none => false
  | some s =>
    if pyStrip s == "" then false
    else social_domains.any (fun d => strContains (pyLower s) d)

/-- `is_ecommerce_url` from `enrich_leads.py`. -/
def is_ecommerce_url (url : Option String) : Bool :=
  match url with
  | none => false
  | some s =>
    if pyStrip s == "" then false
    else ecommerce_domains.any (fun d => strContains (pyLower s) d)

/-! ## Digital-presence migrator (`enrich_leads.py`, `main`, lines 81-136) -/

/-- The four digital-presence fields of one row. -/
structure Rec where
  website : Option String
  google_map_id : Option String
  social_media_links : Option String
  ecommerce_link : Option String
deriving DecidableEq

/-- The emptiness test used on target columns: NaN, blank after strip, or
the literal text `nan` (case-insensitive). -/
def isBlankOrNan (v : Option String) : Bool :=
  match v with
  | none => true
  | some s => pyStrip s == "" || pyLower s == "nan"

/-- One iteration of the migration loop in `main` of `enrich_leads.py`.
`site` is the row's website read once up front; branch 1 (`maps`) ends
with `continue`; branches 2 (social) and 3 (e-commerce) are independent
`if`s, and branch 3 reads the row copy's original e-commerce value. -/
def migrate (r : Rec) : Rec :=
  let site := r.website
  if is_google_maps_url site then
    let r1 := if isBlankOrNan r.google_map_id then { r with google_map_id := site } else r
    { r1 with website := none }
  else
    let r2 :=
      if is_social_media_url site then
        let rs :=
          if isBlankOrNan r.social_media_links then { r with social_media_links := site }
          else { r with social_media_links := some (optStr r.social_media_links ++ " | " ++ optStr site) }
        { rs with website := none }
      else r
    if is_ecommerce_url site then
      let re :=
        if isBlankOrNan r.ecommerce_link then { r2 with ecommerce_link := site }
        else { r2 with ecommerce_link := some (optStr r.ecommerce_link ++ " | " ++ optStr site) }
      { re with website := none }
    else r2

/-! ## Classifier facts used by the migration proofs -/

/-- A null website is not classified as maps. -/
theorem is_google_maps_url_none : is_google_maps_url none = false := rfl

/-- A null website is not classified as social. -/
theorem is_social_media_url_none : is_social_media_url none = false := rfl

/-- A null website is not classified as e-commerce. -/
theorem is_ecommerce_url_none : is_ecommerce_url none = false := rfl

/-! ## Claims about the blacklist evaluator -/

/-- C1 counterexample: a record with a null creation date and a raw check
code that parses to PASSED (`"1"`) does not get `blacklist_status = 1`;
the claim that null dates are assigned SAFE is false on the code. -/
theorem C1_counterexample : blacklistStatus none (some "1") ≠ 1 := by decide

/-- C1 (amended): for every record whose creation date is null, the
blacklist evaluator leaves `blacklist_status` at its default 0 (UNSAFE),
regardless of the raw check code — a null (`NaT`) date fails both the
pre-cutoff and the post-cutoff comparison. -/
theorem C1_null_date_unsafe (raw : Option String) : blacklistStatus none raw = 0 := rfl

/-- C1 witness: the amended theorem evaluated at the raw code `"1"`. -/
theorem C1_null_date_unsafe_witness : blacklistStatus none (some "1") = 0 :=
  C1_null_date_unsafe (some "1")

/-- C6: for a non-null creation date, a date strictly before the
2024-06-01 cutoff yields status 1 regardless of the raw code; a date on
or after the cutoff (the boundary itself included) yields status 1
exactly when the raw code parses to PASSED and status 0 exactly when it
parses to FAILED or UNKNOWN. -/
theorem C6_blacklist_cutoff (d : Date) (raw : Option String) :
    (d.toN < BLACKLIST_START_DATE.toN → blacklistStatus (some d) raw = 1) ∧
    (BLACKLIST_START_DATE.toN ≤ d.toN →
      ((blacklistStatus (some d) raw = 1 ↔ parse_raw_blacklist raw = some 1) ∧
       (blacklistStatus (some d) raw = 0 ↔ parse_raw_blacklist raw ≠ some 1))) := by
  constructor
  · intro h
    simp [blacklistStatus, h]
  · intro h
    have hn : ¬ d.toN < BLACKLIST_START_DATE.toN := Nat.not_lt.mpr h
    by_cases hp : parse_raw_blacklist raw = some 1 <;>
      simp [blacklistStatus, h, hn, hp]

/-- C6 witness: a pre-cutoff record with FAILED code is safe; a
post-cutoff record with FAILED code is unsafe. -/
theorem C6_blacklist_cutoff_witness :
    blacklistStatus (some ⟨2023, 1, 1⟩) (some "0") = 1 ∧
    blacklistStatus (some ⟨2024, 7, 1⟩) (some "0") = 0 :=
  ⟨(C6_blacklist_cutoff ⟨2023, 1, 1⟩ (some "0")).1 (by decide),
   ((C6_blacklist_cutoff ⟨2024, 7, 1⟩ (some "0")).2 (by decide)).2.mpr (by decide)⟩

/-! ## Claims about the digital-presence migrator -/

/-- C5: after migration, the website field of a record is never
classified as maps, social, or e-commerce — every classified value is
cleared to null, so only `none`-classified values remain. -/
theorem C5_website_cleared (r : Rec) :
    is_google_maps_url (migrate r).website = false ∧
    is_social_media_url (migrate r).website = false ∧
    is_ecommerce_url (migrate r).website = false := by
  by_cases hm : is_google_maps_url r.website <;>
  by_cases hs : is_social_media_url r.website <;>
  by_cases he : is_ecommerce_url r.website <;>
  by_cases h1 : isBlankOrNan r.google_map_id <;>
  by_cases h2 : isBlankOrNan r.social_media_links <;>
  by_cases h3 : isBlankOrNan r.ecommerce_link <;>
    simp [migrate, hm, hs, he, h1, h2, h3,
      is_google_maps_url_none, is_social_media_url_none, is_ecommerce_url_none]

/-- C5 witness: the theorem applied to a concrete record holding a
social-media website. -/
theorem C5_website_cleared_witness :
    is_google_maps_url (migrate ⟨some "https://www.facebook.com/mystore", none, none, none⟩).website = false ∧
    is_social_media_url (migrate ⟨some "https://www.facebook.com/mystore", none, none, none⟩).website = false ∧
    is_ecommerce_url (migrate ⟨some "https://www.facebook.com/mystore", none, none, none⟩).website = false :=
  C5_website_cleared ⟨some "https://www.facebook.com/mystore", none, none, none⟩

/-- C2 counterexample: a website matching both the social list
(`facebook.com`) and the e-commerce list (`salla.sa`) fires both
independent branches and is written into both `social_media_links` and
`ecommerce_link`, refuting the claim that at most one of the two
branches fires for any single website value. -/
theorem C2_counterexample :
    (migrate ⟨some "salla.sa/facebook.com", none, none, none⟩).social_media_links
      = some "salla.sa/facebook.com" ∧
    (migrate ⟨some "salla.sa/facebook.com", none, none, none⟩).ecommerce_link
      = some "salla.sa/facebook.com" := by decide

/-- C2 (amended): a maps-classified URL is never tested against the
social/e-commerce rules (both columns stay unchanged), and each of the
social and e-commerce columns is written only when its own domain list
matches; but the two non-maps branches are independent, so a URL
matching both lists is written into both columns. -/
theorem C2_single_category (r : Rec) :
    (is_google_maps_url r.website = true →
       (migrate r).social_media_links = r.social_media_links ∧
       (migrate r).ecommerce_link = r.ecommerce_link) ∧
    (is_social_media_url r.website = false →
       (migrate r).social_media_links = r.social_media_links) ∧
    (is_ecommerce_url r.website = false →
       (migrate r).ecommerce_link = r.ecommerce_link) ∧
    (is_google_maps_url r.website = false →
       (migrate r).google_map_id = r.google_map_id) := by
  by_cases hm : is_google_maps_url r.website <;>
  by_cases hs : is_social_media_url r.website <;>
  by_cases he : is_ecommerce_url r.website <;>
  by_cases h1 : isBlankOrNan r.google_map_id <;>
  by_cases h2 : isBlankOrNan r.social_media_links <;>
  by_cases h3 : isBlankOrNan r.ecommerce_link <;>
    simp [migrate, hm, hs, he, h1, h2, h3]

/-- C2 witness: a maps URL leaves the social and e-commerce columns
untouched even when they are occupied. -/
theorem C2_single_category_witness :
    (migrate ⟨some "maps.google.com/place", none, some "fb", some "salla"⟩).social_media_links
      = some "fb" ∧
    (migrate ⟨some "maps.google.com/place", none, some "fb", some "salla"⟩).ecommerce_link
      = some "salla" :=
  (C2_single_category ⟨some "maps.google.com/place", none, some "fb", some "salla"⟩).1 (by decide)

/-- C10: when the website is classified as maps and `google_map_id` is
already occupied (not null/blank/`nan`), the migrator leaves
`google_map_id` unchanged, still clears `website`, and does not touch
the other columns — the maps URL is discarded, unlike the social and
e-commerce branches, which append to an occupied target with the
separator text of a space, a bar and a space. -/
theorem C10_maps_no_append (r : Rec) :
    (is_google_maps_url r.website = true → isBlankOrNan r.google_map_id = false →
       (migrate r).google_map_id = r.google_map_id ∧ (migrate r).website = none ∧
       (migrate r).social_media_links = r.social_media_links ∧
       (migrate r).ecommerce_link = r.ecommerce_link) ∧
    (is_google_maps_url r.website = false → is_social_media_url r.website = true →
       isBlankOrNan r.social_media_links = false →
       (migrate r).social_media_links
         = some (optStr r.social_media_links ++ " | " ++ optStr r.website)) ∧
    (is_google_maps_url r.website = false → is_ecommerce_url r.website = true →
       isBlankOrNan r.ecommerce_link = false →
       (migrate r).ecommerce_link
         = some (optStr r.ecommerce_link ++ " | " ++ optStr r.website)) := by
  by_cases hm : is_google_maps_url r.website <;>
  by_cases hs : is_social_media_url r.website <;>
  by_cases he : is_ecommerce_url r.website <;>
  by_cases h1 : isBlankOrNan r.google_map_id <;>
  by_cases h2 : isBlankOrNan r.social_media_links <;>
  by_cases h3 : isBlankOrNan r.ecommerce_link <;>
    simp [migrate, hm, hs, he, h1, h2, h3]

/-- C10 witness: a maps URL with an occupied `google_map_id` is
discarded; the map id is kept and the website cleared. -/
theorem C10_maps_no_append_witness :
    (migrate ⟨some "maps.google.com/place", some "ChIJ123", some "fb", some "ec"⟩).google_map_id
      = some "ChIJ123" ∧
    (migrate ⟨some "maps.google.com/place", some "ChIJ123", some "fb", some "ec"⟩).website = none ∧
    (migrate ⟨some "maps.google.com/place", some "ChIJ123", some "fb", some "ec"⟩).social_media_links
      = some "fb" ∧
    (migrate ⟨some "maps.google.com/place", some "ChIJ123", some "fb", some "ec"⟩).ecommerce_link
      = some "ec" :=
  (C10_maps_no_append ⟨some "maps.google.com/place", some "ChIJ123", some "fb", some "ec"⟩).1
    (by decide) (by decide)

/-! ## Step-name cleanup (`enrich_leads.py`, `clean_step_name`) -/

/-- Helper for the regex `v\d+_`: given the characters after a `v`, the
greedy match of one-or-more digits followed by `_` succeeds exactly when
the maximal digit run is nonempty and followed directly by `_` (greedy
backtracking cannot succeed otherwise, since every backtracked char is a
digit, not `_`); returns the characters after the match. -/
def dropVNum (l : List Char) : Option (List Char) :=
  if (l.takeWhile Char.isDigit).isEmpty then none
  else
    match l.dropWhile Char.isDigit with
    | '_' :: r => some r
    | _ => none

/-- Fuel-driven core of Python `re.sub(r'v\d+_', '', s)`: scan left to
right, removing each leftmost non-overlapping match. Fuel at least the
input length suffices, since every step consumes at least one char. -/
def subVFuel : Nat → List Char → List Char
  | 0, l => l
  | _ + 1, [] => []
  | fuel + 1, c :: rest =>
    if c = 'v' then
      match dropVNum rest with
      | some r => subVFuel fuel r
      | none => c :: subVFuel fuel rest
    else c :: subVFuel fuel rest

/-- Python `re.sub(r'v\d+_', '', s)` on char lists. -/
def subV (l : List Char) : List Char := subVFuel l.length l

/-- Fuel-driven core of Python `str.replace(pat, rep)` for a nonempty
pattern: replace leftmost non-overlapping occurrences, left to right. -/
def pyReplaceFuel (pat rep : List Char) : Nat → List Char → List Char
  | 0, l => l
  | _ + 1, [] => []
  | fuel + 1, c :: rest =>
    if startsWith pat (c :: rest) then rep ++ pyReplaceFuel pat rep fuel ((c :: rest).drop pat.length)
    else c :: pyReplaceFuel pat rep fuel rest

/-- Python `str.replace(pat, rep)` on char lists (nonempty pattern). -/
def pyReplace (pat rep l : List Char) : List Char := pyReplaceFuel pat rep l.length l

/-- Python `str.title`: a cased (alphabetic) char is upper-cased when the
previous char is not cased, lower-cased otherwise. -/
def titleAux : Bool → List Char → List Char
  | _, [] => []
  | prevAlpha, c :: rest =>
    (if c.isAlpha then (if prevAlpha then c.toLower else c.toUpper) else c) :: titleAux c.isAlpha rest

/-- The char list of the text `_step`. -/
def stepPat : List Char := ['_', 's', 't', 'e', 'p']

/-- `clean_step_name` from `enrich_leads.py`: null/empty to null, else
lower-case, `re.sub(r'v\d+_', '')`, `.replace('_step', '')`,
`.replace('_', ' ')`, `.title()`. -/
def clean_step_name (val : Option String) : Option String :=
  match val with
  | none => none
  | some s =>
    if s == "" then none
    else
      some (String.mk (titleAux false
        (pyReplace ['_'] [' ']
          (pyReplace stepPat []
            (subV (s.data.map Char.toLower))))))

/-- A dropWhile never lengthens a list. -/
theorem dropWhile_length_le (p : Char → Bool) (l : List Char) :
    (l.dropWhile p).length ≤ l.length := by
  have h2 := congrArg List.length (List.takeWhile_append_dropWhile (p := p) (l := l))
  rw [List.length_append] at h2
  omega

/-- Modelled from the amended spec wording: remove every occurrence of a
version token `v<digits>_` — wherever it occurs — scanning left to
right, non-overlapping. -/
def removeVersionTokens : List Char → List Char
  | [] => []
  | c :: rest =>
    if c = 'v' ∧ rest.takeWhile Char.isDigit ≠ [] ∧ (rest.dropWhile Char.isDigit).head? = some '_' then
      removeVersionTokens (rest.dropWhile Char.isDigit).tail
    else c :: removeVersionTokens rest
termination_by l => l.length
decreasing_by
  · have h2 := dropWhile_length_le Char.isDigit rest
    simp
    omega
  · simp

/-- Modelled from the amended spec wording: remove every occurrence of
the five-char text `_step` — wherever it occurs — scanning left to
right. -/
def removeStepTokens : List Char → List Char
  | [] => []
  | c :: rest =>
    if c = '_' ∧ rest.take 4 = ['s', 't', 'e', 'p'] then removeStepTokens (rest.drop 4)
    else c :: removeStepTokens rest
termination_by l => l.length
decreasing_by
  · simp [List.length_drop]
    omega
  · simp

/-- Modelled from the amended spec wording: replace each underscore with
a space. -/
def underscoreToSpace (l : List Char) : List Char :=
  l.map (fun c => if c = '_' then ' ' else c)

/-- Modelled from the amended spec wording for the step-name cleanup:
null/empty to null, else lower-case, remove every version token, remove
every `_step` occurrence, underscores to spaces, title-case. -/
def cleanStepNameAmended (val : Option String) : Option String :=
  match val with
  | none => none
  | some s =>
    if s = "" then none
    else
      some (String.mk (titleAux false
        (underscoreToSpace (removeStepTokens (removeVersionTokens (s.data.map Char.toLower))))))

/-- `startsWith` is the prefix test. -/
theorem startsWith_iff_take (p : List Char) : ∀ l, startsWith p l = true ↔ l.take p.length = p := by
  induction p with
  | nil =>
    intro l
    simp [startsWith]
  | cons a as ih =>
    intro l
    cases l with
    | nil => simp [startsWith]
    | cons b bs =>
      simp only [startsWith, Bool.and_eq_true, beq_iff_eq, ih bs, List.length_cons,
        List.take_succ_cons, List.cons.injEq]
      constructor
      · rintro ⟨h1, h2⟩
        exact ⟨h1.symm, h2⟩
      · rintro ⟨h1, h2⟩
        exact ⟨h1.symm, h2⟩

/-- Characterization of a successful `v\d+_` tail match. -/
theorem dropVNum_some {l r : List Char} (h : dropVNum l = some r) :
    l.takeWhile Char.isDigit ≠ [] ∧ l.dropWhile Char.isDigit = '_' :: r := by
  unfold dropVNum at h
  split at h
  · exact absurd h (by simp)
  · rename_i he
    refine ⟨by simpa using he, ?_⟩
    split at h
    · rename_i heq
      rw [heq]
      simp at h
      rw [h]
    · exact absurd h (by simp)

/-- A successful `v\d+_` tail match consumes at least one char. -/
theorem dropVNum_some_length {l r : List Char} (h : dropVNum l = some r) :
    r.length < l.length := by
  have h2 := (dropVNum_some h).2
  have h3 := dropWhile_length_le Char.isDigit l
  rw [h2] at h3
  simp at h3
  omega

/-- Characterization of a failed `v\d+_` tail match. -/
theorem dropVNum_none {l : List Char} (h : dropVNum l = none) :
    ¬(l.takeWhile Char.isDigit ≠ [] ∧ (l.dropWhile Char.isDigit).head? = some '_') := by
  unfold dropVNum at h
  split at h
  · rename_i he
    simp at he
    simp [he]
  · rename_i he
    split at h
    · simp at h
    · rename_i hne
      rintro ⟨-, hh⟩
      rcases hd : l.dropWhile Char.isDigit with _ | ⟨c, r⟩
      · rw [hd] at hh
        simp at hh
      · rw [hd] at hh
        simp at hh
        exact hne r (by rw [hd, hh])

/-- The fueled regex substitution agrees with the spec-side removal of
every version token, for sufficient fuel. -/
theorem subVFuel_eq : ∀ fuel (l : List Char), l.length ≤ fuel →
    subVFuel fuel l = removeVersionTokens l := by
  intro fuel
  induction fuel with
  | zero =>
    intro l hl
    have hnil : l = [] := by cases l <;> simp_all
    subst hnil
    simp [subVFuel, removeVersionTokens]
  | succ n ih =>
    intro l hl
    match l with
    | [] => simp [subVFuel, removeVersionTokens]
    | c :: rest =>
      simp only [List.length_cons, Nat.succ_le_succ_iff] at hl
      rw [removeVersionTokens]
      simp only [subVFuel]
      by_cases hc : c = 'v'
      · subst hc
        rw [if_pos rfl]
        cases hd : dropVNum rest with
        | some r =>
          obtain ⟨h1, h2⟩ := dropVNum_some hd
          have hlen := dropVNum_some_length hd
          dsimp only
          rw [ih r (by omega)]
          rw [if_pos ⟨rfl, h1, by rw [h2]; rfl⟩, h2]
          rfl
        | none =>
          have hno := dropVNum_none hd
          dsimp only
          rw [if_neg (by rintro ⟨-, ha, hb⟩; exact hno ⟨ha, hb⟩)]
          rw [ih rest hl]
      · rw [if_neg hc, if_neg (by rintro ⟨h, -⟩; exact hc h)]
        rw [ih rest hl]

/-- `re.sub(r'v\d+_', '', s)` removes every version token occurrence. -/
theorem subV_eq (l : List Char) : subV l = removeVersionTokens l :=
  subVFuel_eq l.length l le_rfl

/-- `str.replace('_step', '')` removes every `_step` occurrence. -/
theorem stepReplace_eq : ∀ fuel (l : List Char), l.length ≤ fuel →
    pyReplaceFuel stepPat [] fuel l = removeStepTokens l := by
  intro fuel
  induction fuel with
  | zero =>
    intro l hl
    have hnil : l = [] := by cases l <;> simp_all
    subst hnil
    simp [pyReplaceFuel, removeStepTokens]
  | succ n ih =>
    intro l hl
    match l with
    | [] => simp [pyReplaceFuel, removeStepTokens]
    | c :: rest =>
      simp only [List.length_cons, Nat.succ_le_succ_iff] at hl
      simp only [pyReplaceFuel]
      rw [removeStepTokens]
      have hiff : startsWith stepPat (c :: rest) = true ↔
          (c = '_' ∧ rest.take 4 = ['s', 't', 'e', 'p']) := by
        rw [startsWith_iff_take]
        show (c :: rest).take 5 = stepPat ↔ _
        rw [List.take_succ_cons, stepPat]
        simp [List.cons.injEq]
      by_cases hp : startsWith stepPat (c :: rest) = true
      · rw [if_pos hp]
        obtain ⟨hc, ht⟩ := hiff.mp hp
        rw [if_pos ⟨hc, ht⟩]
        have hdrop : (c :: rest).drop stepPat.length = rest.drop 4 := rfl
        rw [hdrop]
        have hle : (rest.drop 4).length ≤ n := by
          rw [List.length_drop]
          omega
        rw [ih _ hle]
        simp
      · rw [if_neg hp, if_neg (fun hcond => hp (hiff.mpr hcond))]
        rw [ih rest hl]

/-- `str.replace('_', ' ')` is the char-wise underscore-to-space map. -/
theorem usReplace_eq : ∀ fuel (l : List Char), l.length ≤ fuel →
    pyReplaceFuel ['_'] [' '] fuel l = underscoreToSpace l := by
  intro fuel
  induction fuel with
  | zero =>
    intro l hl
    have hnil : l = [] := by cases l <;> simp_all
    subst hnil
    simp [pyReplaceFuel, underscoreToSpace]
  | succ n ih =>
    intro l hl
    match l with
    | [] => simp [pyReplaceFuel, underscoreToSpace]
    | c :: rest =>
      simp only [List.length_cons, Nat.succ_le_succ_iff] at hl
      simp only [pyReplaceFuel]
      by_cases hc : c = '_'
      · subst hc
        rw [if_pos (show startsWith ['_'] ('_' :: rest) = true from by simp [startsWith])]
        rw [show (('_' : Char) :: rest).drop ['_'].length = rest from rfl]
        rw [ih rest hl]
        simp [underscoreToSpace]
      · rw [if_neg (by simp [startsWith]; exact fun h => hc h.symm)]
        rw [ih rest hl]
        simp [underscoreToSpace, hc]

/-- C4 counterexample: the cleanup removes a version token occurring in
the middle of the code and an interior `_step` substring, contradicting
the claim that only a leading version prefix and a trailing `_step` are
removed and that interior occurrences are left in place. -/
theorem C4_counterexample :
    clean_step_name (some "business_v2_details") ≠ some "Business V2 Details" ∧
    clean_step_name (some "business_v2_details") = some "Business Details" ∧
    clean_step_name (some "confirm_step_two") ≠ some "Confirm Step Two" ∧
    clean_step_name (some "confirm_step_two") = some "Confirm Two" := by decide

/-- C4 (amended): for every raw step code, the cleaned name is produced
by lower-casing, removing every occurrence (not only a leading one) of a
version token `v<digits>_`, removing every occurrence (not only a
trailing one) of `_step`, replacing underscores with spaces, and
title-casing; null/empty input yields null. -/
theorem C4_clean_step (val : Option String) :
    clean_step_name val = cleanStepNameAmended val := by
  match val with
  | none => rfl
  | some s =>
    simp only [clean_step_name, cleanStepNameAmended]
    by_cases hs : s = ""
    · simp [hs]
    · rw [if_neg (by simpa using hs), if_neg hs]
      rw [show subV (s.data.map Char.toLower) = removeVersionTokens (s.data.map Char.toLower) from
        subV_eq _]
      rw [show pyReplace stepPat [] (removeVersionTokens (s.data.map Char.toLower))
            = removeStepTokens (removeVersionTokens (s.data.map Char.toLower)) from
          stepReplace_eq _ _ le_rfl]
      rw [show pyReplace ['_'] [' '] (removeStepTokens (removeVersionTokens (s.data.map Char.toLower)))
            = underscoreToSpace (removeStepTokens (removeVersionTokens (s.data.map Char.toLower))) from
          usReplace_eq _ _ le_rfl]

/-- C4 witness: the amended equivalence evaluated on the flagship step
code from the spec scenario. -/
theorem C4_clean_step_witness :
    clean_step_name (some "v2_business_details_step")
      = cleanStepNameAmended (some "v2_business_details_step") :=
  C4_clean_step (some "v2_business_details_step")

/-! ## Journey stage resolver (`enrich_leads.py`, `get_journey_stage`) -/

/-- The milestone fields read by the journey-stage resolver. -/
structure JourneyRow where
  converted_date : Option Date
  kyb_submitted_date : Option Date
  kyb_in_progress_date : Option Date
  readable_onboarding_step : Option String
  created_date : Option Date

/-- `get_journey_stage` from `enrich_leads.py`. -/
def get_journey_stage (r : JourneyRow) : String :=
  if r.converted_date.isSome then "Converted"
  else if r.kyb_submitted_date.isSome then "KYB Submitted"
  else if r.kyb_in_progress_date.isSome then "KYB In Progress"
  else
    match r.readable_onboarding_step with
    | some step =>
      if strContains step "Final" then "Onboarding Completed" else "Onboarding: " ++ step
    | none => if r.created_date.isSome then "Registered" else "Unknown"

/-- C7: the journey stage resolves in strict priority order, first match
winning: converted, then kyb-submitted, then kyb-in-progress, then a
present cleaned step name (Onboarding Completed when it contains Final,
else the Onboarding prefix), then created (Registered), else Unknown. -/
theorem C7_journey_priority (r : JourneyRow) :
    (r.converted_date.isSome = true → get_journey_stage r = "Converted") ∧
    (r.converted_date = none → r.kyb_submitted_date.isSome = true →
       get_journey_stage r = "KYB Submitted") ∧
    (r.converted_date = none → r.kyb_submitted_date = none →
       r.kyb_in_progress_date.isSome = true → get_journey_stage r = "KYB In Progress") ∧
    (r.converted_date = none → r.kyb_submitted_date = none → r.kyb_in_progress_date = none →
       ∀ step : String, r.readable_onboarding_step = some step →
         get_journey_stage r
           = if strContains step "Final" then "Onboarding Completed"
             else "Onboarding: " ++ step) ∧
    (r.converted_date = none → r.kyb_submitted_date = none → r.kyb_in_progress_date = none →
       r.readable_onboarding_step = none → r.created_date.isSome = true →
       get_journey_stage r = "Registered") ∧
    (r.converted_date = none → r.kyb_submitted_date = none → r.kyb_in_progress_date = none →
       r.readable_onboarding_step = none → r.created_date = none →
       get_journey_stage r = "Unknown") := by
  refine ⟨?_, ?_, ?_, ?_, ?_, ?_⟩ <;> intros <;> simp_all [get_journey_stage]

/-- C7 witness: a record with both a converted and a kyb-submitted
timestamp resolves to Converted. -/
theorem C7_journey_priority_witness :
    get_journey_stage ⟨some ⟨2024, 5, 1⟩, some ⟨2024, 4, 1⟩, none, none, some ⟨2024, 1, 1⟩⟩
      = "Converted" :=
  (C7_journey_priority ⟨some ⟨2024, 5, 1⟩, some ⟨2024, 4, 1⟩, none, none, some ⟨2024, 1, 1⟩⟩).1 rfl

/-! ## Onboarding step flags (`enrich_leads.py`, `step_config` and `check_step`) -/

/-- `step_config` from `enrich_leads.py`: flag column name paired with
the list of raw step codes that set it. -/
def step_config : List (String × List String) :=
  [("otp_sign_up_confirmation_step", ["otp_sign_up_confirmation_step"]),
   ("business_info_step", ["business_info_step"]),
   ("v2_personal_details_step", ["v2_personal_details_step"]),
   ("v2_business_details_step", ["v2_business_details_step"]),
   ("kyc_step", ["kyc_step"]),
   ("v2_bank_details_step", ["v2_bank_details_step"]),
   ("review_application_step", ["review_application_step"]),
   ("v3_sign_contract_step", ["v3_sign_contract_step"]),
   ("final_step", ["v2_final_step", "v3_final_step"])]

/-- `check_step` from `enrich_leads.py`: null gives 0, else 1 exactly
when the stripped code is one of the configured literals. -/
def check_step (val : Option String) (valid_steps : List String) : Nat :=
  match val with
  | none => 0
  | some s => if pyStrip s ∈ valid_steps then 1 else 0

/-- The nine derived step flags of one record, in `step_config` order. -/
def stepFlags (val : Option String) : List Nat :=
  step_config.map (fun p => check_step val p.2)

/-- A string not in any of the lists matches zero of them. -/
theorem countP_mem_zero (t : String) :
    ∀ ll : List (List String), t ∉ ll.flatten →
      ll.countP (fun L => decide (t ∈ L)) = 0 := by
  intro ll
  induction ll with
  | nil => intro _; rfl
  | cons L rest ih =>
    intro h
    rw [List.flatten_cons, List.mem_append] at h
    push_neg at h
    rw [List.countP_cons]
    rw [ih h.2]
    simp [h.1]

/-- When the concatenation of the lists has no duplicate, any string is
a member of at most one of the lists. -/
theorem countP_mem_le_one (t : String) :
    ∀ ll : List (List String), ll.flatten.Nodup →
      ll.countP (fun L => decide (t ∈ L)) ≤ 1 := by
  intro ll
  induction ll with
  | nil => intro _; simp
  | cons L rest ih =>
    intro h
    rw [List.flatten_cons, List.nodup_append] at h
    rw [List.countP_cons]
    by_cases ht : t ∈ L
    · have hz : t ∉ rest.flatten := h.2.2 ht
      rw [countP_mem_zero t rest hz]
      simp [ht]
    · simpa [ht] using ih h.2.1

/-- The number of flags set to 1 equals the number of configured lists
containing the stripped code. -/
theorem count_one_flags (s : String) :
    ∀ l : List (String × List String),
      ((l.map (fun p => check_step (some s) p.2)).count 1)
        = (l.map Prod.snd).countP (fun L => decide (pyStrip s ∈ L)) := by
  intro l
  induction l with
  | nil => rfl
  | cons p rest ih =>
    simp only [List.map_cons, List.count_cons, List.countP_cons, ih]
    by_cases hm : pyStrip s ∈ p.2 <;> simp [check_step, hm]

/-- C9: the nine onboarding step flags are mutually exclusive — for any
raw step code at most one flag equals 1, because the configured literal
sets are pairwise disjoint (their concatenation has no duplicates), and
a null step code sets every flag to 0. -/
theorem C9_flags_exclusive (val : Option String) :
    (stepFlags val).count 1 ≤ 1 ∧ stepFlags none = [0, 0, 0, 0, 0, 0, 0, 0, 0] := by
  refine ⟨?_, by decide⟩
  match val with
  | none => decide
  | some s =>
    rw [stepFlags, count_one_flags s step_config]
    exact countP_mem_le_one (pyStrip s) (step_config.map Prod.snd) (by decide)

/-- C9 witness: the theorem evaluated at the step code `kyc_step`. -/
theorem C9_flags_exclusive_witness :
    (stepFlags (some "kyc_step")).count 1 ≤ 1 ∧
    stepFlags none = [0, 0, 0, 0, 0, 0, 0, 0, 0] :=
  C9_flags_exclusive (some "kyc_step")

/-! ## Deduplication (`enrich_leads.py`, `main`, lines 273-297) -/

/-- The identity fields of one lead; `lead_id` is carrier payload that
distinguishes otherwise-equal rows. -/
structure Lead where
  mobile : Option String
  email : Option String
  lead_id : Option String
deriving DecidableEq

/-- One pass of `df.duplicated(subset=[col], keep='first') & df[col].notna()`
followed by dropping the masked rows: a row is removed exactly when its
key is non-null and equals the key of an earlier row; null-keyed rows are
always kept. `seen` is the set of non-null key values of earlier rows. -/
def dedupBy (key : Lead → Option String) : List String → List Lead → List Lead
  | _, [] => []
  | seen, r :: rest =>
    match key r with
    | none => r :: dedupBy key seen rest
    | some v => if v ∈ seen then dedupBy key seen rest else r :: dedupBy key (v :: seen) rest

/-- A full deduplication pass over one identity field. -/
def dedupPass (key : Lead → Option String) (l : List Lead) : List Lead := dedupBy key [] l

/-- The two sequential passes of `enrich_leads.py`: mobile, then email. -/
def dedupLeads (l : List Lead) : List Lead :=
  dedupPass (fun r => r.email) (dedupPass (fun r => r.mobile) l)

/-- A pass only removes rows, in order. -/
theorem dedupBy_sublist (key : Lead → Option String) :
    ∀ (l : List Lead) (seen : List String), List.Sublist (dedupBy key seen l) l := by
  intro l
  induction l with
  | nil => intro seen; simp [dedupBy]
  | cons r rest ih =>
    intro seen
    rw [dedupBy]
    cases hk : key r with
    | none => exact (ih seen).cons₂ r
    | some v =>
      dsimp only
      by_cases hv : v ∈ seen
      · simp only [if_pos hv]
        exact (ih seen).cons r
      · simp only [if_neg hv]
        exact (ih (v :: seen)).cons₂ r

/-- After a pass the surviving non-null keys are pairwise distinct and
avoid the accumulator. -/
theorem dedupBy_nodup (key : Lead → Option String) :
    ∀ (l : List Lead) (seen : List String),
      ((dedupBy key seen l).filterMap key).Nodup ∧
      ∀ v ∈ (dedupBy key seen l).filterMap key, v ∉ seen := by
  intro l
  induction l with
  | nil => intro seen; simp [dedupBy]
  | cons r rest ih =>
    intro seen
    rw [dedupBy]
    cases hk : key r with
    | none =>
      rw [List.filterMap_cons_none hk]
      exact ih seen
    | some v =>
      dsimp only
      by_cases hv : v ∈ seen
      · simp only [if_pos hv]
        exact ih seen
      · simp only [if_neg hv]
        rw [List.filterMap_cons_some hk]
        obtain ⟨h1, h2⟩ := ih (v :: seen)
        refine ⟨List.nodup_cons.mpr ⟨fun hmem => (h2 v hmem) (List.mem_cons_self v seen), h1⟩, ?_⟩
        intro w hw
        rcases List.mem_cons.mp hw with hw1 | hw2
        · subst hw1
          exact hv
        · exact fun hmem => (h2 w hw2) (List.mem_cons_of_mem v hmem)

/-- A pass over a list whose non-null keys are already pairwise distinct
and avoid the accumulator removes nothing. -/
theorem dedupBy_eq_self (key : Lead → Option String) :
    ∀ (l : List Lead) (seen : List String),
      (l.filterMap key).Nodup → (∀ v ∈ l.filterMap key, v ∉ seen) →
      dedupBy key seen l = l := by
  intro l
  induction l with
  | nil => intro seen _ _; rfl
  | cons r rest ih =>
    intro seen hnd hns
    rw [dedupBy]
    cases hk : key r with
    | none =>
      rw [List.filterMap_cons_none hk] at hnd hns
      rw [ih seen hnd hns]
    | some v =>
      dsimp only
      rw [List.filterMap_cons_some hk] at hnd hns
      have hv : v ∉ seen := hns v (List.mem_cons_self v _)
      rw [if_neg hv]
      rw [List.nodup_cons] at hnd
      have hns2 : ∀ w ∈ rest.filterMap key, w ∉ v :: seen := by
        intro w hw
        rw [List.mem_cons]
        push_neg
        exact ⟨fun he => hnd.1 (he ▸ hw), hns w (List.mem_cons_of_mem v hw)⟩
      rw [ih (v :: seen) hnd.2 hns2]

/-- The surviving non-null keys of a full pass are pairwise distinct. -/
theorem dedupPass_nodup (key : Lead → Option String) (l : List Lead) :
    ((dedupPass key l).filterMap key).Nodup :=
  (dedupBy_nodup key l []).1

/-- A full pass over a list with pairwise-distinct non-null keys is the
identity. -/
theorem dedupPass_eq_self (key : Lead → Option String) (l : List Lead)
    (h : (l.filterMap key).Nodup) : dedupPass key l = l :=
  dedupBy_eq_self key l [] h (by simp)

/-- C8: the two-pass deduplicator is idempotent — applying it to its own
output removes zero additional records and leaves the collection
unchanged. -/
theorem C8_dedup_idempotent (xs : List Lead) :
    dedupLeads (dedupLeads xs) = dedupLeads xs := by
  unfold dedupLeads
  have hm : (((dedupPass (fun r => r.mobile) xs).filterMap (fun r => r.mobile))).Nodup :=
    dedupPass_nodup _ _
  have hsub : List.Sublist
      (dedupPass (fun r => r.email) (dedupPass (fun r => r.mobile) xs))
      (dedupPass (fun r => r.mobile) xs) := dedupBy_sublist _ _ _
  have hm2 : (((dedupPass (fun r => r.email) (dedupPass (fun r => r.mobile) xs)).filterMap
      (fun r => r.mobile))).Nodup := hm.sublist (hsub.filterMap _)
  rw [dedupPass_eq_self (fun r => r.mobile) _ hm2]
  have he : (((dedupPass (fun r => r.email) (dedupPass (fun r => r.mobile) xs)).filterMap
      (fun r => r.email))).Nodup := dedupPass_nodup _ _
  rw [dedupPass_eq_self (fun r => r.email) _ he]

/-- A pass keeps every null-keyed row: the count of null-keyed rows is
preserved. -/
theorem dedupBy_countP_none (key : Lead → Option String) :
    ∀ (l : List Lead) (seen : List String),
      (dedupBy key seen l).countP (fun x => (key x).isNone)
        = l.countP (fun x => (key x).isNone) := by
  intro l
  induction l with
  | nil => intro seen; rfl
  | cons r rest ih =>
    intro seen
    rw [dedupBy]
    cases hk : key r with
    | none =>
      rw [List.countP_cons, List.countP_cons, ih seen]
    | some v =>
      dsimp only
      by_cases hv : v ∈ seen
      · rw [if_pos hv, List.countP_cons, ih seen]
        simp [hk]
      · rw [if_neg hv, List.countP_cons, List.countP_cons, ih (v :: seen)]

/-- Every key value present in the input and not yet seen is still
represented in the output of a pass. -/
theorem dedupBy_retains (key : Lead → Option String) :
    ∀ (l : List Lead) (seen : List String) (v : String), v ∉ seen →
      (∃ x ∈ l, key x = some v) → ∃ y ∈ dedupBy key seen l, key y = some v := by
  intro l
  induction l with
  | nil =>
    intro seen v _ hex
    simp at hex
  | cons r rest ih =>
    intro seen v hv hex
    rw [dedupBy]
    obtain ⟨x, hx, hkx⟩ := hex
    cases hk : key r with
    | none =>
      rcases List.mem_cons.mp hx with hx1 | hx2
      · subst hx1
        rw [hk] at hkx
        exact absurd hkx (by simp)
      · obtain ⟨y, hy, hky⟩ := ih seen v hv ⟨x, hx2, hkx⟩
        exact ⟨y, List.mem_cons_of_mem r hy, hky⟩
    | some w =>
      dsimp only
      by_cases hw : w ∈ seen
      · rw [if_pos hw]
        rcases List.mem_cons.mp hx with hx1 | hx2
        · subst hx1
          rw [hk] at hkx
          injection hkx with hvw
          exact absurd (hvw ▸ hw) hv
        · exact ih seen v hv ⟨x, hx2, hkx⟩
      · rw [if_neg hw]
        by_cases hvw : v = w
        · subst hvw
          exact ⟨r, List.mem_cons_self r _, hk⟩
        · rcases List.mem_cons.mp hx with hx1 | hx2
          · subst hx1
            rw [hk] at hkx
            injection hkx with h2
            exact absurd h2.symm hvw
          · have hv2 : v ∉ w :: seen := by
              rw [List.mem_cons]
              push_neg
              exact ⟨hvw, hv⟩
            obtain ⟨y, hy, hky⟩ := ih (w :: seen) v hv2 ⟨x, hx2, hkx⟩
            exact ⟨y, List.mem_cons_of_mem r hy, hky⟩

/-- Modelled from the amended spec wording for one deduplication pass:
`pre` is the full list of earlier records in current ordering; a record
with a null key is always kept, and a record with a non-null key is
dropped exactly when some earlier record has that same key value — so
among records sharing an identical non-null value only the first
occurrence is kept. -/
def keepFirst (key : Lead → Option String) : List Lead → List Lead → List Lead
  | _, [] => []
  | pre, r :: rest =>
    match key r with
    | none => r :: keepFirst key (pre ++ [r]) rest
    | some v =>
      if ∃ y ∈ pre, key y = some v then keepFirst key (pre ++ [r]) rest
      else r :: keepFirst key (pre ++ [r]) rest

/-- The seen-value accumulator of `dedupBy` tracks exactly the key values
of the earlier records, so the pass coincides with the keep-first
specification. -/
theorem dedupBy_eq_keepFirst (key : Lead → Option String) :
    ∀ (l : List Lead) (seen : List String) (pre : List Lead),
      (∀ v : String, v ∈ seen ↔ ∃ y ∈ pre, key y = some v) →
      dedupBy key seen l = keepFirst key pre l := by
  intro l
  induction l with
  | nil => intro seen pre _; rfl
  | cons r rest ih =>
    intro seen pre hinv
    rw [dedupBy, keepFirst]
    cases hk : key r with
    | none =>
      dsimp only
      have hinv2 : ∀ v : String, v ∈ seen ↔ ∃ y ∈ pre ++ [r], key y = some v := by
        intro v
        rw [hinv v]
        constructor
        · rintro ⟨y, hy, hky⟩
          exact ⟨y, List.mem_append_left _ hy, hky⟩
        · rintro ⟨y, hy, hky⟩
          rcases List.mem_append.mp hy with hy1 | hy2
          · exact ⟨y, hy1, hky⟩
          · rw [List.mem_singleton] at hy2
            subst hy2
            rw [hk] at hky
            exact absurd hky (by simp)
      rw [ih seen (pre ++ [r]) hinv2]
    | some v =>
      dsimp only
      by_cases hv : v ∈ seen
      · rw [if_pos hv, if_pos ((hinv v).mp hv)]
        have hinv2 : ∀ w : String, w ∈ seen ↔ ∃ y ∈ pre ++ [r], key y = some w := by
          intro w
          constructor
          · intro hw
            obtain ⟨y, hy, hky⟩ := (hinv w).mp hw
            exact ⟨y, List.mem_append_left _ hy, hky⟩
          · rintro ⟨y, hy, hky⟩
            rcases List.mem_append.mp hy with hy1 | hy2
            · exact (hinv w).mpr ⟨y, hy1, hky⟩
            · rw [List.mem_singleton] at hy2
              subst hy2
              rw [hk] at hky
              injection hky with hwv
              exact hwv ▸ hv
        rw [ih seen (pre ++ [r]) hinv2]
      · rw [if_neg hv, if_neg (fun hex => hv ((hinv v).mpr hex))]
        have hinv2 : ∀ w : String, w ∈ v :: seen ↔ ∃ y ∈ pre ++ [r], key y = some w := by
          intro w
          rw [List.mem_cons]
          constructor
          · rintro (hw1 | hw2)
            · subst hw1
              exact ⟨r, List.mem_append_right _ (List.mem_singleton_self r), hk⟩
            · obtain ⟨y, hy, hky⟩ := (hinv w).mp hw2
              exact ⟨y, List.mem_append_left _ hy, hky⟩
          · rintro ⟨y, hy, hky⟩
            rcases List.mem_append.mp hy with hy1 | hy2
            · exact Or.inr ((hinv w).mpr ⟨y, hy1, hky⟩)
            · rw [List.mem_singleton] at hy2
              subst hy2
              rw [hk] at hky
              injection hky with hwv
              exact Or.inl hwv.symm
        rw [ih (v :: seen) (pre ++ [r]) hinv2]

/-- C3 counterexample: two records sharing the empty string as mobile are
deduplicated — the second is dropped — refuting the claim that
empty-string values are never treated as duplicates (the pandas mask only
exempts null values, and the empty string is not null). -/
theorem C3_counterexample :
    dedupLeads [⟨some "", none, some "a"⟩, ⟨some "", none, some "b"⟩]
      = [⟨some "", none, some "a"⟩] := by decide

/-- C3 (amended): each deduplication pass equals the keep-first
specification — a record with a null key is always retained, and a record
with a non-null key (the empty string included) is dropped exactly when
some earlier record in current ordering has the same key value, so only
the first occurrence of each non-null value is kept. In consequence:
records whose key is null are never removed (their count is preserved);
each non-null key value survives in at most one record; the pass only
removes records, preserving order; and every key value present in the
input remains represented in the output. -/
theorem C3_dedup_pass_spec (key : Lead → Option String) (xs : List Lead) :
    dedupPass key xs = keepFirst key [] xs ∧
    (dedupPass key xs).countP (fun x => (key x).isNone)
        = xs.countP (fun x => (key x).isNone) ∧
    (∀ v : String, ((dedupPass key xs).filterMap key).count v ≤ 1) ∧
    List.Sublist (dedupPass key xs) xs ∧
    (∀ x ∈ xs, ∀ v : String, key x = some v → ∃ y ∈ dedupPass key xs, key y = some v) := by
  refine ⟨dedupBy_eq_keepFirst key xs [] [] (by simp),
    dedupBy_countP_none key xs [], ?_, dedupBy_sublist key xs [], ?_⟩
  · intro v
    exact List.nodup_iff_count_le_one.mp (dedupPass_nodup key xs) v
  · intro x hx v hkx
    exact dedupBy_retains key xs [] v (by simp) ⟨x, hx, hkx⟩

/-- C3 witness: the keep-first equation and the retention clause applied
to a concrete two-record list sharing a mobile number — the first
occurrence survives, the second is dropped. -/
theorem C3_dedup_pass_spec_witness :
    dedupPass (fun r => r.mobile)
        [⟨some "966500000000", none, some "a"⟩, ⟨some "966500000000", none, some "b"⟩]
      = keepFirst (fun r => r.mobile) []
        [⟨some "966500000000", none, some "a"⟩, ⟨some "966500000000", none, some "b"⟩] ∧
    ∃ y ∈ dedupPass (fun r => r.mobile)
        [⟨some "966500000000", none, some "a"⟩, ⟨some "966500000000", none, some "b"⟩],
      (fun r : Lead => r.mobile) y = some "966500000000" :=
  ⟨(C3_dedup_pass_spec (fun r => r.mobile)
      [⟨some "966500000000", none, some "a"⟩, ⟨some "966500000000", none, some "b"⟩]).1,
   (C3_dedup_pass_spec (fun r => r.mobile)
      [⟨some "966500000000", none, some "a"⟩, ⟨some "966500000000", none, some "b"⟩]).2.2.2.2
     ⟨some "966500000000", none, some "a"⟩ (by simp) "966500000000" rfl⟩
